import Mathlib

/-!
Verification of the kellanator pinball-league statistics app (`src/app.py`).

Python strings are modelled as lists of code points (`PyStr`), Python dicts
as association lists or Lean functions into `Option`, pandas DataFrames as
lists of row records, floats as rationals, and fallible code as `Option`.
-/

/-- Python `str` modelled as a list of code points. -/
abbrev PyStr := List Nat

/-- Build a `PyStr` from a Lean string literal (for concrete test inputs). -/
def pystr (s : String) : PyStr := s.data.map Char.toNat

/-- Python whitespace test (`str.strip` default set, ASCII part). -/
def isSpaceCp (c : Nat) : Bool := c == 32 || c == 9 || c == 10 || c == 13 || c == 11 || c == 12

/-- Python `str.lower` on one code point (ASCII letters). -/
def lowerCp (c : Nat) : Nat := if 65 ≤ c ∧ c ≤ 90 then c + 32 else c

/-- Python `s.lower()`. -/
def pyLower (s : PyStr) : PyStr := s.map lowerCp

/-- Python `s.strip()`: drop whitespace from both ends. -/
def pyStrip (s : PyStr) : PyStr :=
  ((s.dropWhile isSpaceCp).reverse.dropWhile isSpaceCp).reverse

/-- First-match lookup in an association list: Python `d[k]` / `k in d`
for the machine-mapping dict. -/
def lookupMap : List (PyStr × PyStr) → PyStr → Option PyStr
  | [], _ => none
  | (k, v) :: rest, s => if k = s then some v else lookupMap rest s

/-- The `for alias, standard_name in machine_mapping.items()` loop of
`standardize_machine_name`: first value whose lowercase equals `s`. -/
def findStandard : List (PyStr × PyStr) → PyStr → Option PyStr
  | [], _ => none
  | (_, v) :: rest, s => if s = pyLower v then some v else findStandard rest s

/-- `standardize_machine_name` (src/app.py:761): lowercase and strip the
input; return the mapped value on an exact key hit, else the first mapping
value whose lowercase equals the input, else the lowered input itself. -/
def standardize_machine_name (machine_mapping : List (PyStr × PyStr)) (machine_name : PyStr) : PyStr :=
  let machine_lower := pyStrip (pyLower machine_name)
  match lookupMap machine_mapping machine_lower with
  | some v => v
  | none =>
    match findStandard machine_mapping machine_lower with
    | some v => v
    | none => machine_lower

theorem lowerCp_idem (c : Nat) : lowerCp (lowerCp c) = lowerCp c := by
  unfold lowerCp
  by_cases h : 65 ≤ c ∧ c ≤ 90
  · rw [if_pos h, if_neg (by omega)]
  · rw [if_neg h, if_neg h]

theorem pyLower_idem (s : PyStr) : pyLower (pyLower s) = pyLower s := by
  simp [pyLower, List.map_map, Function.comp_def, lowerCp_idem]

theorem isSpaceCp_lowerCp (c : Nat) : isSpaceCp (lowerCp c) = isSpaceCp c := by
  unfold lowerCp
  by_cases h : 65 ≤ c ∧ c ≤ 90
  · rw [if_pos h]
    have h1 : isSpaceCp (c + 32) = false := by
      simp only [isSpaceCp, Bool.or_eq_false_iff, beq_eq_false_iff_ne, ne_eq]
      omega
    have h2 : isSpaceCp c = false := by
      simp only [isSpaceCp, Bool.or_eq_false_iff, beq_eq_false_iff_ne, ne_eq]
      omega
    rw [h1, h2]
  · rw [if_neg h]

theorem dropWhile_map_lowerCp (s : PyStr) :
    (s.map lowerCp).dropWhile isSpaceCp = (s.dropWhile isSpaceCp).map lowerCp := by
  induction s with
  | nil => rfl
  | cons c t ih =>
    simp only [List.map_cons, List.dropWhile_cons, isSpaceCp_lowerCp]
    by_cases h : isSpaceCp c = true
    · simp [h, ih]
    · simp [h]

theorem pyLower_pyStrip_comm (s : PyStr) : pyLower (pyStrip s) = pyStrip (pyLower s) := by
  simp only [pyLower, pyStrip, dropWhile_map_lowerCp, ← List.map_reverse]

theorem dropWhile_dropWhile (p : Nat → Bool) (l : List Nat) :
    (l.dropWhile p).dropWhile p = l.dropWhile p := by
  induction l with
  | nil => rfl
  | cons c t ih =>
    by_cases h : p c = true
    · simp [List.dropWhile_cons, h, ih]
    · simp [List.dropWhile_cons, h]

theorem head_dropWhile_false (p : Nat → Bool) (l : List Nat) (x : Nat)
    (h : (l.dropWhile p).head? = some x) : p x = false := by
  induction l with
  | nil => simp at h
  | cons c t ih =>
    by_cases hc : p c = true
    · simp only [List.dropWhile_cons, hc, if_true] at h; exact ih h
    · simp only [List.dropWhile_cons, hc, if_false, List.head?_cons] at h
      cases h; simpa using hc

theorem dropWhile_eq_self_of_head (p : Nat → Bool) (l : List Nat)
    (h : ∀ x, l.head? = some x → p x = false) : l.dropWhile p = l := by
  cases l with
  | nil => rfl
  | cons c t =>
    have := h c rfl
    simp [List.dropWhile_cons, this]

theorem getLast?_dropWhile (p : Nat → Bool) (l : List Nat)
    (h : l.dropWhile p ≠ []) : (l.dropWhile p).getLast? = l.getLast? := by
  induction l with
  | nil => simp at h
  | cons c t ih =>
    by_cases hc : p c = true
    · simp only [List.dropWhile_cons, hc, if_true] at h ⊢
      rw [ih h]
      have ht : t ≠ [] := by
        intro he; rw [he] at h; simp at h
      cases t with
      | nil => exact absurd rfl ht
      | cons d u => simp [List.getLast?_cons_cons]
    · simp [List.dropWhile_cons, hc]

theorem head?_pyStrip_false (s : PyStr) (x : Nat)
    (h : (pyStrip s).head? = some x) : isSpaceCp x = false := by
  unfold pyStrip at h
  rw [List.head?_reverse] at h
  set B := (s.dropWhile isSpaceCp).reverse.dropWhile isSpaceCp with hB
  have hBne : B ≠ [] := by
    intro he; rw [he] at h; simp at h
  rw [hB, getLast?_dropWhile _ _ (hB ▸ hBne)] at h
  rw [List.getLast?_reverse] at h
  exact head_dropWhile_false _ _ _ h

theorem getLast?_pyStrip_false (s : PyStr) (x : Nat)
    (h : (pyStrip s).getLast? = some x) : isSpaceCp x = false := by
  unfold pyStrip at h
  rw [List.getLast?_reverse] at h
  exact head_dropWhile_false _ _ _ h

theorem pyStrip_idem (s : PyStr) : pyStrip (pyStrip s) = pyStrip s := by
  have h1 : (pyStrip s).dropWhile isSpaceCp = pyStrip s :=
    dropWhile_eq_self_of_head _ _ (fun x hx => head?_pyStrip_false s x hx)
  have h2 : (pyStrip s).reverse.dropWhile isSpaceCp = (pyStrip s).reverse := by
    apply dropWhile_eq_self_of_head
    intro x hx
    rw [List.head?_reverse] at hx
    exact getLast?_pyStrip_false s x hx
  unfold pyStrip
  show ((((pyStrip s).dropWhile isSpaceCp).reverse.dropWhile isSpaceCp)).reverse = pyStrip s
  rw [h1, h2, List.reverse_reverse]

/-- The lower-then-strip normalisation performed at the top of
`standardize_machine_name`. -/
def lowNorm (s : PyStr) : PyStr := pyStrip (pyLower s)

theorem pyStrip_lowNorm (s : PyStr) : pyStrip (lowNorm s) = lowNorm s := by
  unfold lowNorm; rw [pyStrip_idem]

theorem pyLower_lowNorm (s : PyStr) : pyLower (lowNorm s) = lowNorm s := by
  show pyLower (pyStrip (pyLower s)) = pyStrip (pyLower s)
  rw [pyLower_pyStrip_comm, pyLower_idem]

theorem lowNorm_idem (s : PyStr) : lowNorm (lowNorm s) = lowNorm s := by
  calc lowNorm (lowNorm s) = pyStrip (pyLower (lowNorm s)) := rfl
    _ = pyStrip (lowNorm s) := by rw [pyLower_lowNorm]
    _ = lowNorm s := pyStrip_lowNorm s

theorem lookupMap_mem {m : List (PyStr × PyStr)} {l v : PyStr}
    (h : lookupMap m l = some v) : (l, v) ∈ m := by
  induction m with
  | nil => simp [lookupMap] at h
  | cons p rest ih =>
    obtain ⟨k, w⟩ := p
    by_cases hk : k = l
    · subst hk
      simp only [lookupMap, if_pos rfl] at h
      cases h; exact List.mem_cons_self _ _
    · simp only [lookupMap, if_neg hk] at h
      exact List.mem_cons_of_mem _ (ih h)

theorem findStandard_eq_lower {m : List (PyStr × PyStr)} {l v : PyStr}
    (h : findStandard m l = some v) : l = pyLower v := by
  induction m with
  | nil => simp [findStandard] at h
  | cons p rest ih =>
    obtain ⟨k, w⟩ := p
    by_cases hw : l = pyLower w
    · simp only [findStandard, if_pos hw] at h
      cases h; exact hw
    · simp only [findStandard, if_neg hw] at h
      exact ih h

theorem standardize_machine_name_eq (m : List (PyStr × PyStr)) (s : PyStr) :
    standardize_machine_name m s =
      match lookupMap m (pyStrip (pyLower s)) with
      | some v => v
      | none =>
        match findStandard m (pyStrip (pyLower s)) with
        | some v => v
        | none => pyStrip (pyLower s) := rfl

/-- Alias table taking "a" to "b" and "b" to "c": normalization chains. -/
def chainMap : List (PyStr × PyStr) := [(pystr "a", pystr "b"), (pystr "b", pystr "c")]

/-- C10 counterexample: with a chained alias table, applying
`standardize_machine_name` twice to "a" gives "c", not "b". -/
theorem standardize_machine_name_not_idem_cx :
    standardize_machine_name chainMap (standardize_machine_name chainMap (pystr "a")) ≠
      standardize_machine_name chainMap (pystr "a") := by decide

/-- C10 (amended): machine-name normalization is idempotent provided every
value of the alias table is itself a fixed point of normalization. -/
theorem standardize_machine_name_idem (m : List (PyStr × PyStr))
    (hfix : ∀ p ∈ m, standardize_machine_name m p.2 = p.2) (s : PyStr) :
    standardize_machine_name m (standardize_machine_name m s) =
      standardize_machine_name m s := by
  have hl : pyStrip (pyLower (pyStrip (pyLower s))) = pyStrip (pyLower s) := lowNorm_idem s
  have hss : pyStrip (pyStrip (pyLower s)) = pyStrip (pyLower s) := pyStrip_lowNorm s
  cases hlook : lookupMap m (pyStrip (pyLower s)) with
  | some v =>
    have hstd : standardize_machine_name m s = v := by
      rw [standardize_machine_name_eq, hlook]
    rw [hstd]
    exact hfix (pyStrip (pyLower s), v) (lookupMap_mem hlook)
  | none =>
    cases hfind : findStandard m (pyStrip (pyLower s)) with
    | some v =>
      have hstd : standardize_machine_name m s = v := by
        rw [standardize_machine_name_eq, hlook, hfind]
      have hlv : pyStrip (pyLower s) = pyLower v := findStandard_eq_lower hfind
      have hnorm : pyStrip (pyLower v) = pyStrip (pyLower s) := by
        rw [← hlv, hss]
      rw [hstd, standardize_machine_name_eq, hnorm, hlook, hfind]
    | none =>
      have hstd : standardize_machine_name m s = pyStrip (pyLower s) := by
        rw [standardize_machine_name_eq, hlook, hfind]
      rw [hstd, standardize_machine_name_eq, hl, hlook, hfind]

/-- A self-normalizing alias table for the idempotence witness. -/
def okMap : List (PyStr × PyStr) :=
  [(pystr "mm", pystr "medieval madness"), (pystr "medieval madness", pystr "medieval madness")]

theorem standardize_machine_name_idem_witness :
    (∀ p ∈ okMap, standardize_machine_name okMap p.2 = p.2) ∧
      standardize_machine_name okMap
          (standardize_machine_name okMap (pystr " Medieval MADNESS ")) =
        standardize_machine_name okMap (pystr " Medieval MADNESS ") :=
  ⟨by decide, standardize_machine_name_idem okMap (by decide) (pystr " Medieval MADNESS ")⟩

/-- Python `s.split(sep)` accumulator. -/
def pySplitAux (sep : Nat) (acc : PyStr) : PyStr → List PyStr
  | [] => [acc.reverse]
  | c :: rest => if c = sep then acc.reverse :: pySplitAux sep [] rest else pySplitAux sep (c :: acc) rest

/-- Python `s.split(sep)` for a one-character separator. -/
def pySplit (sep : Nat) (s : PyStr) : List PyStr := pySplitAux sep [] s

/-- Python `int(s)` on a digit string. -/
def pyInt (s : PyStr) : Nat := s.foldl (fun a c => a * 10 + (c - 48)) 0

/-- `int(match['key'].split('-')[1])`: the season number inside a match key. -/
def seasonOfKey (k : PyStr) : Nat := pyInt ((pySplit 45 k).getD 1 [])

/-- A lineup entry: `{'key': ..., 'name': ...}`. -/
structure PPlayer where
  key : PyStr
  name : PyStr
deriving DecidableEq

/-- A game inside a round: machine name plus the four player/score slots
(`player_i` / `score_i`). -/
structure PGame where
  n : Nat
  machine : PyStr
  slots : List (PyStr × Int)
deriving DecidableEq

/-- A round: its number `n` and its games. -/
structure PRound where
  n : Nat
  games : List PGame
deriving DecidableEq

/-- One side of a match: team name and lineup. -/
structure TeamSide where
  name : PyStr
  lineup : List PPlayer
deriving DecidableEq

/-- A match record as consumed by `process_all_rounds_and_games`. -/
structure PMatch where
  key : PyStr
  venue : PyStr
  home : TeamSide
  away : TeamSide
  rounds : List PRound
deriving DecidableEq

/-- One row of the flattened event table built by
`process_all_rounds_and_games` (src/app.py:805). -/
structure Event where
  season : Nat
  machine : PyStr
  player_name : PyStr
  score : Int
  team : PyStr
  matchKey : PyStr
  round : Nat
  game_number : Nat
  venue : PyStr
  picked_by : PyStr
  is_pick : Bool
  is_pick_twc : Bool
  is_roster_player : Bool
deriving DecidableEq

/-- Ambient configuration read from session state / the database:
the machine alias mapping, `get_score_limits()`, and `team_abbr_dict`. -/
structure Env where
  machine_mapping : List (PyStr × PyStr)
  score_limits : PyStr → Option Int
  team_abbr : PyStr → Option PyStr

/-- Search a lineup for a player key. -/
def findPlayerName (lineup : List PPlayer) (k : PyStr) : Option PyStr :=
  (lineup.find? (fun p => p.key == k)).map (fun p => p.name)

/-- `get_player_name` (src/app.py:783): look the key up in the home then
away lineup, falling back to the key itself. -/
def get_player_name (player_key : PyStr) (m : PMatch) : PyStr :=
  match findPlayerName m.home.lineup player_key with
  | some n => n
  | none =>
    match findPlayerName m.away.lineup player_key with
    | some n => n
    | none => player_key

/-- `is_roster_player` (src/app.py:790): false without roster data or a
team abbreviation, else membership in the abbreviation's roster list. -/
def is_roster_player (env : Env) (team_roster : Option (PyStr → List PyStr))
    (player_name team : PyStr) : Bool :=
  match team_roster with
  | none => false
  | some roster =>
    match env.team_abbr team with
    | none => false
    | some abbr => if abbr = [] then false else decide (player_name ∈ roster abbr)

/-- The event emitted for one score slot of a game. -/
def slotEventAt (env : Env) (team_roster : Option (PyStr → List PyStr)) (m : PMatch)
    (season round_number : Nat) (g : PGame) (machine : PyStr)
    (is_team_pick is_twc_pick : Bool) (slot : PyStr × Int) : Event :=
  { season := season
    machine := machine
    player_name := get_player_name slot.1 m
    score := slot.2
    team := if m.home.lineup.any (fun p => p.key == slot.1) then m.home.name else m.away.name
    matchKey := m.key
    round := round_number
    game_number := g.n
    venue := m.venue
    picked_by := if round_number = 1 ∨ round_number = 3 then m.away.name else m.home.name
    is_pick := is_team_pick
    is_pick_twc := is_twc_pick
    is_roster_player := is_roster_player env team_roster (get_player_name slot.1 m)
      (if m.home.lineup.any (fun p => p.key == slot.1) then m.home.name else m.away.name) }

/-- The `for pos in ['1','2','3','4']` loop: skip zero scores and scores
above the machine's configured limit, emit an event for the rest. -/
def slotEvents (env : Env) (team_roster : Option (PyStr → List PyStr)) (m : PMatch)
    (season round_number : Nat) (g : PGame) (machine : PyStr)
    (is_team_pick is_twc_pick : Bool) : List Event :=
  g.slots.filterMap (fun slot =>
    if slot.2 = 0 then none
    else if (match env.score_limits machine with
             | some limit => decide (slot.2 > limit)
             | none => false) then none
    else some (slotEventAt env team_roster m season round_number g machine
      is_team_pick is_twc_pick slot))

/-- The `for game in round_info['games']` loop, threading the
`machines_in_round` set used to mark at most one pick per machine. -/
def gamesEvents (env : Env) (team_roster : Option (PyStr → List PyStr)) (m : PMatch)
    (season round_number : Nat) (is_sel_pick_round is_twc_pick_round : Bool) :
    List PGame → List PyStr → List Event
  | [], _ => []
  | g :: gs, machines_in_round =>
    let machine := standardize_machine_name env.machine_mapping (pyLower g.machine)
    if machine = [] then
      gamesEvents env team_roster m season round_number is_sel_pick_round is_twc_pick_round
        gs machines_in_round
    else
      slotEvents env team_roster m season round_number g machine
          (is_sel_pick_round && !(machines_in_round.contains machine))
          (is_twc_pick_round && !(machines_in_round.contains machine)) ++
        gamesEvents env team_roster m season round_number is_sel_pick_round is_twc_pick_round
          gs (machine :: machines_in_round)

/-- Events of one match: the away side picks in rounds 1 and 3, the home
side in rounds 2 and 4; the selected team's role defaults to away when its
name matches neither side, and TWC takes the opposite role. -/
def matchEvents (env : Env) (team_roster : Option (PyStr → List PyStr))
    (team_name : PyStr) (m : PMatch) : List Event :=
  let season := seasonOfKey m.key
  m.rounds.flatMap (fun r =>
    gamesEvents env team_roster m season r.n
      (if team_name = m.home.name then decide (r.n = 2 ∨ r.n = 4) else decide (r.n = 1 ∨ r.n = 3))
      (if team_name = m.home.name then decide (r.n = 1 ∨ r.n = 3) else decide (r.n = 2 ∨ r.n = 4))
      r.games [])

/-- The `recent_machines.add` step for one game. -/
def gameRecentAdd (env : Env) (latest season : Nat) (match_venue venue_name : PyStr)
    (excluded : List PyStr) (g : PGame) (acc : List PyStr) : List PyStr :=
  let machine := standardize_machine_name env.machine_mapping (pyLower g.machine)
  if machine = [] then acc
  else if season = latest ∧ match_venue = venue_name then
    (if excluded = [] ∨ machine ∉ excluded then
      (if machine ∈ acc then acc else acc ++ [machine]) else acc)
  else acc

/-- Recent-machine accumulation over one match. -/
def matchRecent (env : Env) (latest : Nat) (venue_name : PyStr) (excluded : List PyStr)
    (m : PMatch) (acc : List PyStr) : List PyStr :=
  m.rounds.foldl (fun a r =>
    r.games.foldl (fun b g =>
      gameRecentAdd env latest (seasonOfKey m.key) m.venue venue_name excluded g b) a) acc

/-- `process_all_rounds_and_games` (src/app.py:805). `max()` over the
seasons of an empty match list raises, modelled as `none`; otherwise the
flattened event table and the recent-machine set are returned. -/
def process_all_rounds_and_games (env : Env) (all_data : List PMatch)
    (team_name venue_name twc_team_name : PyStr)
    (team_roster : Option (PyStr → List PyStr))
    (included_machines excluded_machines : List PyStr) :
    Option (List Event × List PyStr) :=
  match all_data with
  | [] => none
  | _ :: _ =>
    let latest := (all_data.map (fun m => seasonOfKey m.key)).foldl max 0
    let recent0 := included_machines.foldl (fun acc x => if x ∈ acc then acc else acc ++ [x]) []
    some (all_data.flatMap (fun m => matchEvents env team_roster team_name m),
      all_data.foldl (fun acc m => matchRecent env latest venue_name excluded_machines m acc) recent0)

theorem mem_slotEvents {env : Env} {team_roster : Option (PyStr → List PyStr)} {m : PMatch}
    {season round_number : Nat} {g : PGame} {machine : PyStr} {tp twp : Bool} {e : Event}
    (h : e ∈ slotEvents env team_roster m season round_number g machine tp twp) :
    e.is_pick = tp ∧ e.is_pick_twc = twp ∧ e.machine = machine ∧ e.score ≠ 0 ∧
      e.round = round_number ∧ e.matchKey = m.key ∧
      (∀ L, env.score_limits machine = some L → e.score ≤ L) := by
  unfold slotEvents at h
  rw [List.mem_filterMap] at h
  obtain ⟨slot, _, hsome⟩ := h
  by_cases h0 : slot.2 = 0
  · rw [if_pos h0] at hsome; exact absurd hsome (by simp)
  · rw [if_neg h0] at hsome
    cases hlim : env.score_limits machine with
    | some L =>
      rw [hlim] at hsome
      by_cases hover : slot.2 > L
      · rw [if_pos (decide_eq_true hover)] at hsome
        exact absurd hsome (by simp)
      · rw [if_neg (by simpa using hover)] at hsome
        rw [Option.some.injEq] at hsome
        subst hsome
        refine ⟨rfl, rfl, rfl, h0, rfl, rfl, ?_⟩
        intro L2 hL2
        cases hL2
        exact le_of_not_lt hover
    | none =>
      rw [hlim] at hsome
      rw [if_neg (by simp)] at hsome
      rw [Option.some.injEq] at hsome
      subst hsome
      exact ⟨rfl, rfl, rfl, h0, rfl, rfl, fun L2 hL2 => by cases hL2⟩

theorem slotEvents_exists {env : Env} {team_roster : Option (PyStr → List PyStr)} {m : PMatch}
    {season round_number : Nat} {g : PGame} {machine : PyStr} {tp twp : Bool}
    (slot : PyStr × Int) (hs : slot ∈ g.slots) (h0 : slot.2 ≠ 0)
    (hlim : ∀ L, env.score_limits machine = some L → slot.2 ≤ L) :
    ∃ e ∈ slotEvents env team_roster m season round_number g machine tp twp,
      e.machine = machine ∧ e.score = slot.2 ∧ e.matchKey = m.key ∧
        e.round = round_number ∧ e.game_number = g.n := by
  have hcond : (match env.score_limits machine with
      | some limit => decide (slot.2 > limit)
      | none => false) = false := by
    cases hl : env.score_limits machine with
    | some L =>
      simp only [decide_eq_false_iff_not, not_lt]
      exact hlim L hl
    | none => rfl
  refine ⟨slotEventAt env team_roster m season round_number g machine tp twp slot, ?_,
    rfl, rfl, rfl, rfl, rfl⟩
  apply List.mem_filterMap.mpr
  exact ⟨slot, hs, by rw [if_neg h0, hcond, if_neg (by simp)]⟩

theorem mem_gamesEvents {env : Env} {team_roster : Option (PyStr → List PyStr)} {m : PMatch}
    {season round_number : Nat} {selR twcR : Bool} :
    ∀ (games : List PGame) (acc : List PyStr) (e : Event),
      e ∈ gamesEvents env team_roster m season round_number selR twcR games acc →
      (e.is_pick = true → selR = true) ∧ (e.is_pick_twc = true → twcR = true) ∧
        e.round = round_number ∧ e.matchKey = m.key ∧
        (∀ L, env.score_limits e.machine = some L → e.score ≤ L) := by
  intro games
  induction games with
  | nil => intro acc e h; simp [gamesEvents] at h
  | cons g gs ih =>
    intro acc e h
    rw [gamesEvents] at h
    by_cases hm : standardize_machine_name env.machine_mapping (pyLower g.machine) = []
    · rw [if_pos hm] at h
      exact ih _ e h
    · rw [if_neg hm] at h
      rw [List.mem_append] at h
      rcases h with h | h
      · obtain ⟨hp, htw, hmach, _, hround, hkey, hlim⟩ := mem_slotEvents h
        refine ⟨?_, ?_, hround, hkey, ?_⟩
        · intro hpt; rw [hp] at hpt; exact (Bool.and_eq_true _ _ |>.mp hpt).1
        · intro hpt; rw [htw] at hpt; exact (Bool.and_eq_true _ _ |>.mp hpt).1
        · rw [hmach]; exact hlim
      · exact ih _ e h

theorem gamesEvents_exists {env : Env} {team_roster : Option (PyStr → List PyStr)} {m : PMatch}
    {season round_number : Nat} {selR twcR : Bool} :
    ∀ (games : List PGame) (acc : List PyStr) (g : PGame), g ∈ games →
      ∀ slot ∈ g.slots, slot.2 ≠ 0 →
      standardize_machine_name env.machine_mapping (pyLower g.machine) ≠ [] →
      (∀ L, env.score_limits (standardize_machine_name env.machine_mapping (pyLower g.machine)) =
        some L → slot.2 ≤ L) →
      ∃ e ∈ gamesEvents env team_roster m season round_number selR twcR games acc,
        e.machine = standardize_machine_name env.machine_mapping (pyLower g.machine) ∧
          e.score = slot.2 ∧ e.matchKey = m.key ∧ e.round = round_number ∧
          e.game_number = g.n := by
  intro games
  induction games with
  | nil => intro acc g hg; simp at hg
  | cons g0 gs ih =>
    intro acc g hg slot hs h0 hmach hlim
    rw [List.mem_cons] at hg
    rw [gamesEvents]
    rcases hg with rfl | hg
    · rw [if_neg hmach]
      obtain ⟨e, he, hfields⟩ :=
        @slotEvents_exists env team_roster m season round_number g
          (standardize_machine_name env.machine_mapping (pyLower g.machine))
          (selR && !(acc.contains (standardize_machine_name env.machine_mapping (pyLower g.machine))))
          (twcR && !(acc.contains (standardize_machine_name env.machine_mapping (pyLower g.machine))))
          slot hs h0 hlim
      exact ⟨e, List.mem_append_left _ he, hfields⟩
    · by_cases hm0 : standardize_machine_name env.machine_mapping (pyLower g0.machine) = []
      · rw [if_pos hm0]
        exact ih _ g hg slot hs h0 hmach hlim
      · rw [if_neg hm0]
        obtain ⟨e, he, hfields⟩ :=
          ih (standardize_machine_name env.machine_mapping (pyLower g0.machine) :: acc)
            g hg slot hs h0 hmach hlim
        exact ⟨e, List.mem_append_right _ he, hfields⟩

/-- C2: pick-flag exclusivity — no emitted event carries both the analyzed
team's pick flag and the reference team's pick flag when the two teams
differ, because the pick rounds of the two roles are disjoint. -/
theorem pick_flags_exclusive (env : Env) (all_data : List PMatch)
    (team_name venue_name twc_team_name : PyStr)
    (team_roster : Option (PyStr → List PyStr)) (included excluded : List PyStr)
    (events : List Event) (recent : List PyStr)
    (hne : team_name ≠ twc_team_name)
    (hrun : process_all_rounds_and_games env all_data team_name venue_name twc_team_name
      team_roster included excluded = some (events, recent))
    (e : Event) (he : e ∈ events) :
    ¬ (e.is_pick = true ∧ e.is_pick_twc = true) := by
  rintro ⟨hp, htw⟩
  cases all_data with
  | nil => exact absurd hrun (by simp [process_all_rounds_and_games])
  | cons m0 ms =>
    simp only [process_all_rounds_and_games, Option.some.injEq, Prod.mk.injEq] at hrun
    obtain ⟨hev, _⟩ := hrun
    subst hev
    rw [List.mem_flatMap] at he
    obtain ⟨m, _, hm⟩ := he
    simp only [matchEvents] at hm
    rw [List.mem_flatMap] at hm
    obtain ⟨r, _, hr⟩ := hm
    obtain ⟨hsel, htwc, _, _, _⟩ := mem_gamesEvents _ _ _ hr
    by_cases hh : team_name = m.home.name
    · have h1 := of_decide_eq_true ((if_pos hh ▸ hsel hp))
      have h2 := of_decide_eq_true ((if_pos hh ▸ htwc htw))
      omega
    · have h1 := of_decide_eq_true ((if_neg hh ▸ hsel hp))
      have h2 := of_decide_eq_true ((if_neg hh ▸ htwc htw))
      omega

/-- C6: score-ceiling exclusion — every emitted event respects its
machine's configured score limit (so a score above the limit never
appears), and every nonzero score slot whose machine has no limit or
whose score is at most the limit (in particular a score equal to the
limit) does appear in the flattened table. -/
theorem score_ceiling_exclusion (env : Env) (all_data : List PMatch)
    (team_name venue_name twc_team_name : PyStr)
    (team_roster : Option (PyStr → List PyStr)) (included excluded : List PyStr)
    (events : List Event) (recent : List PyStr)
    (hrun : process_all_rounds_and_games env all_data team_name venue_name twc_team_name
      team_roster included excluded = some (events, recent)) :
    (∀ e ∈ events, ∀ L, env.score_limits e.machine = some L → e.score ≤ L) ∧
      (∀ m ∈ all_data, ∀ r ∈ m.rounds, ∀ g ∈ r.games, ∀ slot ∈ g.slots, slot.2 ≠ 0 →
        standardize_machine_name env.machine_mapping (pyLower g.machine) ≠ [] →
        (∀ L, env.score_limits (standardize_machine_name env.machine_mapping (pyLower g.machine)) =
          some L → slot.2 ≤ L) →
        ∃ e ∈ events,
          e.machine = standardize_machine_name env.machine_mapping (pyLower g.machine) ∧
            e.score = slot.2 ∧ e.matchKey = m.key ∧ e.round = r.n ∧ e.game_number = g.n) := by
  cases all_data with
  | nil => exact absurd hrun (by simp [process_all_rounds_and_games])
  | cons m0 ms =>
    simp only [process_all_rounds_and_games, Option.some.injEq, Prod.mk.injEq] at hrun
    obtain ⟨hev, _⟩ := hrun
    subst hev
    constructor
    · intro e he L hL
      rw [List.mem_flatMap] at he
      obtain ⟨m, _, hm⟩ := he
      simp only [matchEvents] at hm
      rw [List.mem_flatMap] at hm
      obtain ⟨r, _, hr⟩ := hm
      obtain ⟨_, _, _, _, hlim⟩ := mem_gamesEvents _ _ _ hr
      exact hlim L hL
    · intro m hm r hr g hg slot hs h0 hmach hlim
      obtain ⟨e, he, hf⟩ :=
        @gamesEvents_exists env team_roster m (seasonOfKey m.key) r.n
          (if team_name = m.home.name then decide (r.n = 2 ∨ r.n = 4)
            else decide (r.n = 1 ∨ r.n = 3))
          (if team_name = m.home.name then decide (r.n = 1 ∨ r.n = 3)
            else decide (r.n = 2 ∨ r.n = 4))
          r.games [] g hg slot hs h0 hmach hlim
      refine ⟨e, ?_, hf⟩
      rw [List.mem_flatMap]
      refine ⟨m, hm, ?_⟩
      simp only [matchEvents]
      rw [List.mem_flatMap]
      exact ⟨r, hr, he⟩

/-- C8: the event flattener fails on an empty match list — the maximum
season cannot be computed from nothing — and no partial table is
returned. -/
theorem process_empty_input_fails (env : Env) (team_name venue_name twc_team_name : PyStr)
    (team_roster : Option (PyStr → List PyStr)) (included excluded : List PyStr) :
    process_all_rounds_and_games env [] team_name venue_name twc_team_name
      team_roster included excluded = none := rfl

/-- Concrete environment for witnesses: "taxi" has score limit 2000. -/
def exEnv : Env :=
  { machine_mapping := []
    score_limits := fun mach => if mach = pystr "taxi" then some (2000 : Int) else none
    team_abbr := fun _ => none }

/-- A one-match, one-round, one-game sample input. -/
def exMatch : PMatch :=
  { key := pystr "mnp-21-5"
    venue := pystr "Grounds"
    home := { name := pystr "Home", lineup := [{ key := pystr "pA", name := pystr "Alice" }] }
    away := { name := pystr "Away", lineup := [{ key := pystr "pB", name := pystr "Bob" }] }
    rounds := [{ n := 1
                 games := [{ n := 1
                             machine := pystr "Taxi"
                             slots := [(pystr "pA", 1000), (pystr "pB", 500)] }] }] }

/-- Sample run of the flattener. -/
def exRun : Option (List Event × List PyStr) :=
  process_all_rounds_and_games exEnv [exMatch] (pystr "Home") (pystr "Grounds")
    (pystr "TWC") none [] []

def exEvents : List Event := (exRun.getD ([], [])).1

def exRecent : List PyStr := (exRun.getD ([], [])).2

def defaultEvent : Event :=
  { season := 0, machine := [], player_name := [], score := 0, team := [], matchKey := []
    round := 0, game_number := 0, venue := [], picked_by := [], is_pick := false
    is_pick_twc := false, is_roster_player := false }

def exEvent0 : Event := exEvents.headD defaultEvent

theorem pick_flags_exclusive_witness :
    ¬ (exEvent0.is_pick = true ∧ exEvent0.is_pick_twc = true) :=
  pick_flags_exclusive exEnv [exMatch] (pystr "Home") (pystr "Grounds") (pystr "TWC")
    none [] [] exEvents exRecent (by decide) rfl exEvent0 (by decide)

theorem score_ceiling_exclusion_witness :
    exEvent0.score ≤ 2000 ∧
      (∃ e ∈ exEvents,
        e.machine = standardize_machine_name exEnv.machine_mapping (pyLower (pystr "Taxi")) ∧
          e.score = 1000 ∧ e.matchKey = exMatch.key ∧ e.round = 1 ∧ e.game_number = 1) := by
  have h := score_ceiling_exclusion exEnv [exMatch] (pystr "Home") (pystr "Grounds")
    (pystr "TWC") none [] [] exEvents exRecent rfl
  constructor
  · exact h.1 exEvent0 (by decide) 2000 (by decide)
  · exact h.2 exMatch (by decide) (exMatch.rounds.headD ⟨0, []⟩) (by decide)
      ((exMatch.rounds.headD ⟨0, []⟩).games.headD ⟨0, [], []⟩) (by decide)
      (pystr "pA", 1000) (by decide) (by decide) (by decide)
      (fun L hL => by
        have h2000 : exEnv.score_limits (standardize_machine_name exEnv.machine_mapping
            (pyLower ((exMatch.rounds.headD ⟨0, []⟩).games.headD ⟨0, [], []⟩).machine)) =
            some 2000 := by decide
        rw [h2000] at hL
        cases hL
        decide)

/-- The `if team:` block of `filter_data` (src/app.py:890): case-insensitive
trimmed team equality, with the roster restriction nested inside it. -/
def teamStage (df : List Event) (team : Option PyStr) (roster_only : Bool) : List Event :=
  match team with
  | some t =>
    if t ≠ [] then
      let ft := df.filter (fun e => pyLower (pyStrip e.team) == pyLower (pyStrip t))
      if roster_only then ft.filter (fun e => e.is_roster_player) else ft
    else df
  | none => df

/-- The `if seasons:` block: inclusive `between`. -/
def seasonStage (df : List Event) (seasons : Option (Nat × Nat)) : List Event :=
  match seasons with
  | some sb => df.filter (fun e => decide (sb.1 ≤ e.season ∧ e.season ≤ sb.2))
  | none => df

/-- The `if venue:` block: trimmed — but case-sensitive — venue equality. -/
def venueStage (df : List Event) (venue : Option PyStr) : List Event :=
  match venue with
  | some v => if v ≠ [] then df.filter (fun e => pyStrip e.venue == pyStrip v) else df
  | none => df

/-- `filter_data` (src/app.py:890): the three optional filters applied in
sequence. -/
def filter_data (df : List Event) (team : Option PyStr) (seasons : Option (Nat × Nat))
    (venue : Option PyStr) (roster_only : Bool) : List Event :=
  venueStage (seasonStage (teamStage df team roster_only) seasons) venue

/-- Modelled from the spec, for the refinement check of claim C9 only:
filtering as the spec describes it — case-insensitive trimmed equality on
team AND venue, and `roster_only` restricting independently of whether a
team filter is given. -/
def filterDataClaimed (df : List Event) (team : Option PyStr) (seasons : Option (Nat × Nat))
    (venue : Option PyStr) (roster_only : Bool) : List Event :=
  let f1 :=
    match team with
    | some t =>
      if t ≠ [] then df.filter (fun e => pyLower (pyStrip e.team) == pyLower (pyStrip t)) else df
    | none => df
  let f2 := if roster_only then f1.filter (fun e => e.is_roster_player) else f1
  let f3 :=
    match seasons with
    | some sb => f2.filter (fun e => decide (sb.1 ≤ e.season ∧ e.season ≤ sb.2))
    | none => f2
  match venue with
  | some v =>
    if v ≠ [] then f3.filter (fun e => pyLower (pyStrip e.venue) == pyLower (pyStrip v)) else f3
  | none => f3

theorem mem_teamStage (df : List Event) (team : Option PyStr) (ro : Bool) (e : Event) :
    e ∈ teamStage df team ro ↔ e ∈ df ∧
      (∀ t, team = some t → t ≠ [] →
        pyLower (pyStrip e.team) = pyLower (pyStrip t) ∧ (ro = true → e.is_roster_player = true)) := by
  rcases team with _ | t
  · simp [teamStage]
  · by_cases ht : t = []
    · subst ht
      simp [teamStage]
    · cases ro
      · simp only [teamStage, if_pos ht, if_neg Bool.false_ne_true, List.mem_filter,
          beq_iff_eq, Option.some.injEq]
        constructor
        · rintro ⟨h1, h2⟩
          exact ⟨h1, fun u hu _ => by cases hu; exact ⟨h2, by simp⟩⟩
        · rintro ⟨h1, h2⟩
          exact ⟨h1, (h2 t rfl ht).1⟩
      · simp only [teamStage, if_pos ht, eq_self_iff_true, if_true, List.mem_filter,
          beq_iff_eq, Option.some.injEq]
        constructor
        · rintro ⟨⟨h1, h2⟩, h3⟩
          exact ⟨h1, fun u hu _ => by cases hu; exact ⟨h2, fun _ => h3⟩⟩
        · rintro ⟨h1, h2⟩
          exact ⟨⟨h1, (h2 t rfl ht).1⟩, (h2 t rfl ht).2 trivial⟩

theorem mem_seasonStage (df : List Event) (seasons : Option (Nat × Nat)) (e : Event) :
    e ∈ seasonStage df seasons ↔ e ∈ df ∧
      (∀ a b, seasons = some (a, b) → a ≤ e.season ∧ e.season ≤ b) := by
  rcases seasons with _ | ⟨a, b⟩
  · simp [seasonStage]
  · simp only [seasonStage, List.mem_filter, decide_eq_true_eq, Option.some.injEq]
    constructor
    · rintro ⟨h1, h2⟩
      refine ⟨h1, fun a2 b2 hab => ?_⟩
      rw [Prod.mk.injEq] at hab
      obtain ⟨rfl, rfl⟩ := hab
      exact h2
    · rintro ⟨h1, h2⟩
      exact ⟨h1, h2 a b rfl⟩

theorem mem_venueStage (df : List Event) (venue : Option PyStr) (e : Event) :
    e ∈ venueStage df venue ↔ e ∈ df ∧
      (∀ v, venue = some v → v ≠ [] → pyStrip e.venue = pyStrip v) := by
  rcases venue with _ | v
  · simp [venueStage]
  · by_cases hv : v = []
    · subst hv
      simp [venueStage]
    · simp only [venueStage, if_pos hv, List.mem_filter, beq_iff_eq,
        Option.some.injEq]
      constructor
      · rintro ⟨h1, h2⟩
        exact ⟨h1, fun u hu _ => by cases hu; exact h2⟩
      · rintro ⟨h1, h2⟩
        exact ⟨h1, h2 v rfl hv⟩

/-- C9 (amended): `filter_data` keeps exactly the rows passing the
conjunction of the provided filters, where the team comparison is
case-insensitive and trimmed, the roster restriction applies only when a
team filter is provided, the season range is inclusive, and the venue
comparison is trimmed but CASE-SENSITIVE. -/
theorem filter_data_mem (df : List Event) (team : Option PyStr) (seasons : Option (Nat × Nat))
    (venue : Option PyStr) (roster_only : Bool) (e : Event) :
    e ∈ filter_data df team seasons venue roster_only ↔ e ∈ df ∧
      (∀ t, team = some t → t ≠ [] →
        pyLower (pyStrip e.team) = pyLower (pyStrip t) ∧
          (roster_only = true → e.is_roster_player = true)) ∧
      (∀ a b, seasons = some (a, b) → a ≤ e.season ∧ e.season ≤ b) ∧
      (∀ v, venue = some v → v ≠ [] → pyStrip e.venue = pyStrip v) := by
  unfold filter_data
  rw [mem_venueStage, mem_seasonStage, mem_teamStage]
  tauto

/-- Two rows differing in venue case and roster membership. -/
def cxRowRoster : Event :=
  { defaultEvent with venue := pystr "pub", is_roster_player := true }

def cxRowUpper : Event :=
  { defaultEvent with venue := pystr "PUB", is_roster_player := false }

/-- C9 counterexample: filtering on venue "PUB" with `roster_only` and no
team filter keeps the non-roster row with venue "PUB" and drops the roster
row with venue "pub" — the code's venue test is case-sensitive and its
roster restriction is inert without a team filter, contradicting the
claimed semantics. -/
theorem filter_data_claim_cx :
    filter_data [cxRowRoster, cxRowUpper] none none (some (pystr "PUB")) true ≠
      filterDataClaimed [cxRowRoster, cxRowUpper] none none (some (pystr "PUB")) true := by
  decide

/-- The "Times Played" branch of `calculate_stat_for_column`
(src/app.py:977): team-filtered (roster-only, season range, venue when
venue-specific), machine-restricted; "N/A" when no rows remain, else the
number of `groupby(['match','round'])` groups. -/
def timesPlayedStat (df : List Event) (machine team_name : PyStr) (seasons : Nat × Nat)
    (venue_name : PyStr) (venue_specific : Bool) : Option Nat :=
  let filtered := filter_data df (some team_name) (some seasons)
    (if venue_specific then some venue_name else none) true
  let machine_data := filtered.filter (fun e => e.machine == machine)
  if machine_data = [] then none
  else some ((machine_data.map (fun e => (e.matchKey, e.round))).dedup.length)

/-- C4: "Times Played" counts distinct (match, round) pairs among the
qualifying events for the machine — a machine repeated within one round of
a match is counted once — and is "N/A" exactly when no event qualifies. -/
theorem times_played_distinct_pairs (df : List Event) (machine team_name : PyStr)
    (seasons : Nat × Nat) (venue_name : PyStr) (venue_specific : Bool) (k : Nat) :
    timesPlayedStat df machine team_name seasons venue_name venue_specific = some k ↔
      ((filter_data df (some team_name) (some seasons)
          (if venue_specific then some venue_name else none) true).filter
        (fun e => e.machine == machine)) ≠ [] ∧
      k = (((filter_data df (some team_name) (some seasons)
          (if venue_specific then some venue_name else none) true).filter
        (fun e => e.machine == machine)).map
          (fun e => (e.matchKey, e.round))).toFinset.card := by
  unfold timesPlayedStat
  by_cases hemp : ((filter_data df (some team_name) (some seasons)
      (if venue_specific then some venue_name else none) true).filter
    (fun e => e.machine == machine)) = []
  · rw [if_pos hemp]
    simp [hemp]
  · rw [if_neg hemp]
    rw [List.card_toFinset]
    simp only [Option.some.injEq]
    constructor
    · intro h; exact ⟨hemp, h.symm⟩
    · intro h; exact h.2.symm

/-- Rounding to two decimal places, as Python's `"{:.2f}"` format does
for the table cells, over the rationals. -/
def round2 (q : ℚ) : ℚ := (round (q * 100) : ℚ) / 100

/-- `np.mean` of a list of integer scores. -/
def meanScore (scores : List Int) : ℚ := (scores.sum : ℚ) / (scores.length : ℚ)

/-- An average column of `calculate_stat_for_column`: filter, restrict to
the machine, "N/A" (`none`) when empty, else the mean formatted to two
decimal places. -/
def avgStat (df : List Event) (machine : PyStr) (team : Option PyStr) (seasons : Nat × Nat)
    (venue : Option PyStr) (roster_only : Bool) : Option ℚ :=
  let md := (filter_data df team (some seasons) venue roster_only).filter
    (fun e => e.machine == machine)
  if md = [] then none
  else some (round2 (meanScore (md.map (fun e => e.score))))

/-- The "Team Average" cell: team filter, roster only, venue when
venue-specific. -/
def teamAverageCell (df : List Event) (machine team_name venue_name : PyStr)
    (seasons : Nat × Nat) (venue_specific : Bool) : Option ℚ :=
  avgStat df machine (some team_name) seasons
    (if venue_specific then some venue_name else none) true

/-- The "Venue Average" cell: venue and season filter over all teams. -/
def venueAverageCell (df : List Event) (machine venue_name : PyStr)
    (seasons : Nat × Nat) : Option ℚ :=
  avgStat df machine none seasons (some venue_name) false

/-- The "% of V. Avg." cell of `calculate_averages` (src/app.py:1057):
`(team_avg / venue_avg * 100)` formatted to two decimals when both
operands parse and the venue average is nonzero, else "N/A". -/
def pctOfVenueCell (t v : Option ℚ) : Option ℚ :=
  match t, v with
  | some tq, some vq => if vq ≠ 0 then some (round2 (tq / vq * 100)) else none
  | _, _ => none

theorem pctOfVenueCell_spec (t v : Option ℚ) :
    (∀ tq vq, t = some tq → v = some vq → vq ≠ 0 →
      pctOfVenueCell t v = some (round2 (100 * tq / vq))) ∧
      (pctOfVenueCell t v = none ↔ t = none ∨ v = none ∨ v = some 0) := by
  constructor
  · rintro tq vq rfl rfl hvq
    simp only [pctOfVenueCell, if_pos hvq, Option.some.injEq]
    congr 1
    ring
  · rcases t with _ | tq <;> rcases v with _ | vq <;> simp [pctOfVenueCell]

/-- C5: percentage round-trip — whenever the Team Average and Venue
Average cells are numeric, the "% of V. Avg." cell equals
`round2 (100 * team_avg / venue_avg)`, and it is "N/A" exactly when an
operand is "N/A" or the venue average is zero. -/
theorem pct_of_venue_avg_round_trip (df : List Event) (machine team_name venue_name : PyStr)
    (seasons vseasons : Nat × Nat) (venue_specific : Bool) :
    (∀ tq vq,
      teamAverageCell df machine team_name venue_name seasons venue_specific = some tq →
      venueAverageCell df machine venue_name vseasons = some vq → vq ≠ 0 →
      pctOfVenueCell (teamAverageCell df machine team_name venue_name seasons venue_specific)
        (venueAverageCell df machine venue_name vseasons) = some (round2 (100 * tq / vq))) ∧
      (pctOfVenueCell (teamAverageCell df machine team_name venue_name seasons venue_specific)
          (venueAverageCell df machine venue_name vseasons) = none ↔
        teamAverageCell df machine team_name venue_name seasons venue_specific = none ∨
          venueAverageCell df machine venue_name vseasons = none ∨
          venueAverageCell df machine venue_name vseasons = some 0) :=
  pctOfVenueCell_spec (teamAverageCell df machine team_name venue_name seasons venue_specific)
    (venueAverageCell df machine venue_name vseasons)

/-- Single-event table for the percentage witness. -/
def exAvgRow : Event :=
  { defaultEvent with machine := pystr "m", team := pystr "T", venue := pystr "V"
                      score := 100, season := 5, is_roster_player := true }

theorem exAvg_mean : meanScore [(100 : Int)] = 100 := by
  unfold meanScore
  norm_num

theorem exAvg_team_cell :
    teamAverageCell [exAvgRow] (pystr "m") (pystr "T") (pystr "V") (1, 9999) true = some 100 := by
  show some (round2 (meanScore [(100 : Int)])) = some (100 : ℚ)
  rw [exAvg_mean, round2]
  norm_num [round_eq]

theorem exAvg_venue_cell :
    venueAverageCell [exAvgRow] (pystr "m") (pystr "V") (1, 9999) = some 100 := by
  show some (round2 (meanScore [(100 : Int)])) = some (100 : ℚ)
  rw [exAvg_mean, round2]
  norm_num [round_eq]

theorem pct_of_venue_avg_round_trip_witness :
    pctOfVenueCell (teamAverageCell [exAvgRow] (pystr "m") (pystr "T") (pystr "V") (1, 9999) true)
        (venueAverageCell [exAvgRow] (pystr "m") (pystr "V") (1, 9999)) =
      some (round2 (100 * 100 / 100)) :=
  (pct_of_venue_avg_round_trip [exAvgRow] (pystr "m") (pystr "T") (pystr "V")
    (1, 9999) (1, 9999) true).1 100 100 exAvg_team_cell exAvg_venue_cell (by norm_num)

/-- Percent-of-venue used in `build_player_machine_stats` (src/app.py:2135):
`avg / venue_avg * 100` when both the venue average and the average are
positive, else 0. -/
def pctOfVenue (venue_avg avg : ℚ) : ℚ :=
  if venue_avg > 0 ∧ avg > 0 then avg / venue_avg * 100 else 0

/-- Experience advantage normalised to the percentage scale: 5 plays
correspond to 20 points, clamped to ±100 (src/app.py:2186). -/
def normalizedExpAdv (experience_advantage : Int) : ℚ :=
  min (max ((experience_advantage : ℚ) / 5 * 20) (-100)) 100

/-- The composite advantage score of `build_player_machine_stats`
(src/app.py:2150): ±100 sentinels when exactly one side has data, 0 when
neither does, else the 0.7/0.3 weighted blend of statistical and
normalised experience advantage. -/
def compositeScore (venue_avg twc_avg opponent_avg : ℚ)
    (twc_plays opponent_plays : Nat) : ℚ :=
  let opponent_pct := pctOfVenue venue_avg opponent_avg
  let twc_pct := pctOfVenue venue_avg twc_avg
  let experience_advantage : Int := (twc_plays : Int) - (opponent_plays : Int)
  let statistical_advantage : Option ℚ :=
    if twc_pct > 0 ∧ opponent_pct > 0 then some (twc_pct - opponent_pct) else none
  if twc_pct > 0 ∧ opponent_pct = 0 then 100
  else if twc_pct = 0 ∧ opponent_pct > 0 then -100
  else if twc_pct = 0 ∧ opponent_pct = 0 then 0
  else
    match statistical_advantage with
    | some sa => sa * (7 / 10) + normalizedExpAdv experience_advantage * (3 / 10)
    | none => 0

theorem pctOfVenue_nonneg (venue_avg avg : ℚ) : 0 ≤ pctOfVenue venue_avg avg := by
  unfold pctOfVenue
  split
  · next h => exact le_of_lt (mul_pos (div_pos h.2 h.1) (by norm_num))
  · exact le_refl 0

/-- C1: the composite advantage score follows the spec's piecewise
definition, reading "has data" as a positive percent-of-venue: +100 when
only the analyzed (TWC) side has data, -100 when only the reference
(opponent) side has, 0 when neither has, and otherwise
`0.7 * (analyzed_pct - reference_pct) + 0.3 * clamp((plays diff)/5*20, ±100)`. -/
theorem composite_score_piecewise (venue_avg twc_avg opponent_avg : ℚ)
    (twc_plays opponent_plays : Nat) :
    (pctOfVenue venue_avg twc_avg > 0 → pctOfVenue venue_avg opponent_avg = 0 →
      compositeScore venue_avg twc_avg opponent_avg twc_plays opponent_plays = 100) ∧
    (pctOfVenue venue_avg twc_avg = 0 → pctOfVenue venue_avg opponent_avg > 0 →
      compositeScore venue_avg twc_avg opponent_avg twc_plays opponent_plays = -100) ∧
    (pctOfVenue venue_avg twc_avg = 0 → pctOfVenue venue_avg opponent_avg = 0 →
      compositeScore venue_avg twc_avg opponent_avg twc_plays opponent_plays = 0) ∧
    (pctOfVenue venue_avg twc_avg > 0 → pctOfVenue venue_avg opponent_avg > 0 →
      compositeScore venue_avg twc_avg opponent_avg twc_plays opponent_plays =
        (7 / 10) * (pctOfVenue venue_avg twc_avg - pctOfVenue venue_avg opponent_avg) +
          (3 / 10) * min (max (((twc_plays : ℚ) - (opponent_plays : ℚ)) / 5 * 20) (-100)) 100) := by
  refine ⟨?_, ?_, ?_, ?_⟩
  · intro htp hop
    unfold compositeScore
    rw [if_pos ⟨htp, hop⟩]
  · intro htp hop
    unfold compositeScore
    rw [if_neg (by rintro ⟨h1, _⟩; exact (ne_of_gt h1) htp),
      if_pos ⟨htp, hop⟩]
  · intro htp hop
    unfold compositeScore
    rw [if_neg (by rintro ⟨h1, _⟩; exact (ne_of_gt h1) htp),
      if_neg (by rintro ⟨_, h2⟩; exact (ne_of_gt h2) hop),
      if_pos ⟨htp, hop⟩]
  · intro htp hop
    unfold compositeScore
    rw [if_neg (by rintro ⟨_, h2⟩; exact (ne_of_gt hop) h2),
      if_neg (by rintro ⟨h1, _⟩; exact (ne_of_gt htp) h1),
      if_neg (by rintro ⟨h1, _⟩; exact (ne_of_gt htp) h1),
      if_pos ⟨htp, hop⟩]
    simp only [normalizedExpAdv]
    push_cast
    ring

theorem composite_score_piecewise_witness :
    compositeScore 100 110 90 10 2 =
      (7 / 10) * (pctOfVenue 100 110 - pctOfVenue 100 90) +
        (3 / 10) * min (max ((((10 : Nat) : ℚ) - ((2 : Nat) : ℚ)) / 5 * 20) (-100)) 100 :=
  (composite_score_piecewise 100 110 90 10 2).2.2.2
    (by norm_num [pctOfVenue]) (by norm_num [pctOfVenue])

/-- The pair score of `optimize_doubles_format` (src/app.py:2404):
`(score1 + score2) * 0.5 + min(score1, score2) * 0.5`. -/
def pair_machine_score (score1 score2 : ℚ) : ℚ :=
  (score1 + score2) * (1 / 2) + min score1 score2 * (1 / 2)

/-- The pair–machine score table entry of `optimize_doubles_format`, from
the individual player lookups (`.get(machine, 0)` modelled by total
functions). -/
def pairScoresAt (player_machine_scores : PyStr → PyStr → ℚ)
    (p1 p2 machine : PyStr) : ℚ :=
  pair_machine_score (player_machine_scores p1 machine) (player_machine_scores p2 machine)

/-- C7: the doubles pair score is `0.5*(a+b) + 0.5*min(a,b)`; at individual
scores 80 and 20 it is exactly 60, not the naive average 50. -/
theorem doubles_pair_score_formula :
    (∀ a b : ℚ, pair_machine_score a b = (1 / 2) * (a + b) + (1 / 2) * min a b) ∧
      pair_machine_score 80 20 = 60 := by
  constructor
  · intro a b
    unfold pair_machine_score
    ring
  · unfold pair_machine_score
    rw [show min (80 : ℚ) 20 = 20 from by norm_num]
    norm_num

/-- All ways to assign columns from `avail` injectively to `r` rows. -/
def injectionsFrom : Nat → List Nat → List (List Nat)
  | 0, _ => [[]]
  | r + 1, avail =>
    avail.flatMap (fun c => (injectionsFrom r (avail.erase c)).map (fun rest => c :: rest))

/-- Total cost of a row–column pairing. -/
def pairsCost (cost : Nat → Nat → ℚ) (pairs : List (Nat × Nat)) : ℚ :=
  pairs.foldl (fun a rc => a + cost rc.1 rc.2) 0

/-- First minimiser of `f` in a list. -/
def argminBy {α : Type} (f : α → ℚ) : List α → Option α
  | [] => none
  | x :: xs => some (xs.foldl (fun b y => if f y < f b then y else b) x)

/-- Model of `scipy.optimize.linear_sum_assignment`: an optimal assignment
of min(nrows, ncols) row–column pairs minimising total cost, realised as
the first minimiser over all candidate assignments. The properties proved
below depend only on the assignment's size, which every optimal assignment
shares with this one. -/
def linear_sum_assignment (nrows ncols : Nat) (cost : Nat → Nat → ℚ) : List (Nat × Nat) :=
  let k := min nrows ncols
  let candidates := ((List.range nrows).sublistsLen k).flatMap
    (fun rows => (injectionsFrom k (List.range ncols)).map (fun cols => rows.zip cols))
  match argminBy (pairsCost cost) candidates with
  | some a => a
  | none => []

/-- `optimize_singles_format` (src/app.py:2316): clamp the requested count
to the available machines and players, return empty on zero, else run the
assignment, sort the triples by score descending (stably), take the top
`num` and read off machines and one-player assignments. -/
def optimize_singles_format (player_machine_scores : PyStr → PyStr → ℚ)
    (available_machines : List PyStr) (available_players : List PyStr)
    (num_machines_to_pick : Nat) : List PyStr × List (PyStr × List PyStr) :=
  let num := min num_machines_to_pick (min available_machines.length available_players.length)
  if num = 0 then ([], [])
  else
    let cost : Nat → Nat → ℚ := fun i j =>
      -(player_machine_scores (available_players.getD i []) (available_machines.getD j []))
    let ri_ci := linear_sum_assignment available_players.length available_machines.length cost
    let assignments := ri_ci.map (fun rc =>
      (available_players.getD rc.1 [], available_machines.getD rc.2 [], -(cost rc.1 rc.2)))
    let sorted := assignments.mergeSort (fun a b => decide (b.2.2 ≤ a.2.2))
    let top := sorted.take num
    (top.map (fun a => a.2.1), top.map (fun a => (a.2.1, [a.1])))

theorem length_of_mem_injectionsFrom :
    ∀ (r : Nat) (avail cols : List Nat), cols ∈ injectionsFrom r avail → cols.length = r := by
  intro r
  induction r with
  | zero =>
    intro avail cols h
    simp only [injectionsFrom, List.mem_singleton] at h
    subst h; rfl
  | succ r ih =>
    intro avail cols h
    simp only [injectionsFrom, List.mem_flatMap, List.mem_map] at h
    obtain ⟨c, _, rest, hrest, rfl⟩ := h
    simp [ih _ _ hrest]

theorem injectionsFrom_ne_nil :
    ∀ (r : Nat) (avail : List Nat), r ≤ avail.length → injectionsFrom r avail ≠ [] := by
  intro r
  induction r with
  | zero => intro avail _; simp [injectionsFrom]
  | succ r ih =>
    intro avail h
    cases avail with
    | nil => simp at h
    | cons a t =>
      have ht : r ≤ t.length := by simpa using h
      obtain ⟨cols0, hcols0⟩ := List.exists_mem_of_ne_nil _ (ih t ht)
      apply List.ne_nil_of_mem (a := a :: cols0)
      simp only [injectionsFrom, List.mem_flatMap, List.mem_map]
      refine ⟨a, List.mem_cons_self a t, cols0, ?_, rfl⟩
      rw [List.erase_cons_head]
      exact hcols0

theorem foldl_min_mem {α : Type} (f : α → ℚ) :
    ∀ (l : List α) (b : α), l.foldl (fun b y => if f y < f b then y else b) b ∈ b :: l := by
  intro l
  induction l with
  | nil => intro b; simp
  | cons y ys ih =>
    intro b
    simp only [List.foldl_cons]
    by_cases h : f y < f b
    · rw [if_pos h]
      exact List.mem_cons_of_mem _ (ih y)
    · rw [if_neg h]
      rcases List.mem_cons.mp (ih b) with h1 | h1
      · rw [h1]; exact List.mem_cons_self _ _
      · exact List.mem_cons_of_mem _ (List.mem_cons_of_mem _ h1)

theorem argminBy_mem {α : Type} (f : α → ℚ) (l : List α) (x : α)
    (h : argminBy f l = some x) : x ∈ l := by
  cases l with
  | nil => simp [argminBy] at h
  | cons a xs =>
    simp only [argminBy, Option.some.injEq] at h
    subst h
    exact foldl_min_mem f xs a

theorem argminBy_eq_none {α : Type} (f : α → ℚ) (l : List α) :
    argminBy f l = none ↔ l = [] := by
  cases l <;> simp [argminBy]

theorem linear_sum_assignment_length (nrows ncols : Nat) (cost : Nat → Nat → ℚ) :
    (linear_sum_assignment nrows ncols cost).length = min nrows ncols := by
  unfold linear_sum_assignment
  have hne : (((List.range nrows).sublistsLen (min nrows ncols)).flatMap
      (fun rows => (injectionsFrom (min nrows ncols) (List.range ncols)).map
        (fun cols => rows.zip cols))) ≠ [] := by
    obtain ⟨cols0, hcols0⟩ := List.exists_mem_of_ne_nil _
      (injectionsFrom_ne_nil (min nrows ncols) (List.range ncols)
        (by rw [List.length_range]; exact Nat.min_le_right _ _))
    apply List.ne_nil_of_mem (a := ((List.range nrows).take (min nrows ncols)).zip cols0)
    rw [List.mem_flatMap]
    refine ⟨(List.range nrows).take (min nrows ncols), ?_, ?_⟩
    · exact List.mem_sublistsLen.mpr ⟨List.take_sublist _ _,
        by rw [List.length_take, List.length_range]
           exact Nat.min_eq_left (Nat.min_le_left _ _)⟩
    · exact List.mem_map.mpr ⟨cols0, hcols0, rfl⟩
  cases harg : argminBy (pairsCost cost)
      (((List.range nrows).sublistsLen (min nrows ncols)).flatMap
        (fun rows => (injectionsFrom (min nrows ncols) (List.range ncols)).map
          (fun cols => rows.zip cols))) with
  | none => exact absurd ((argminBy_eq_none _ _).mp harg) hne
  | some a =>
    simp only [harg]
    have ha := argminBy_mem _ _ _ harg
    rw [List.mem_flatMap] at ha
    obtain ⟨rows, hrows, ha2⟩ := ha
    rw [List.mem_map] at ha2
    obtain ⟨cols, hcols, rfl⟩ := ha2
    rw [List.length_zip, (List.mem_sublistsLen.mp hrows).2,
      length_of_mem_injectionsFrom _ _ _ hcols, Nat.min_self]

theorem optimize_singles_format_length_aux (player_machine_scores : PyStr → PyStr → ℚ)
    (available_machines available_players : List PyStr) (num_machines_to_pick : Nat) :
    (optimize_singles_format player_machine_scores available_machines available_players
        num_machines_to_pick).1.length =
      min num_machines_to_pick (min available_machines.length available_players.length) := by
  unfold optimize_singles_format
  by_cases h0 : min num_machines_to_pick
      (min available_machines.length available_players.length) = 0
  · rw [if_pos h0, h0]; rfl
  · rw [if_neg h0]
    simp only [List.length_map, List.length_take]
    rw [List.length_mergeSort, List.length_map, linear_sum_assignment_length]
    rw [Nat.min_comm available_players.length available_machines.length]
    exact Nat.min_eq_left (Nat.min_le_right _ _)

/-- C3 (amended): the singles optimizer clamps the requested count to
min(requested, available machines, available players) and returns exactly
that many machine picks — with fewer players than requested machines it
silently substitutes a partial result; the result is empty only when the
clamped count is zero. -/
theorem optimize_singles_partial_result (player_machine_scores : PyStr → PyStr → ℚ)
    (available_machines available_players : List PyStr) (num_machines_to_pick : Nat) :
    (optimize_singles_format player_machine_scores available_machines available_players
        num_machines_to_pick).1.length =
      min num_machines_to_pick (min available_machines.length available_players.length) :=
  optimize_singles_format_length_aux player_machine_scores available_machines
    available_players num_machines_to_pick

/-- C3 counterexample: with 3 available players, 4 available machines and
4 requested picks, the optimizer returns a 3-machine partial result, not
the claimed explicit-infeasibility (empty) result. -/
theorem optimize_singles_infeasible_cx :
    (optimize_singles_format (fun _ _ => 0)
        [pystr "m1", pystr "m2", pystr "m3", pystr "m4"]
        [pystr "a", pystr "b", pystr "c"] 4).1.length = 3 ∧
      optimize_singles_format (fun _ _ => 0)
          [pystr "m1", pystr "m2", pystr "m3", pystr "m4"]
          [pystr "a", pystr "b", pystr "c"] 4 ≠ ([], []) := by
  have h := optimize_singles_format_length_aux (fun _ _ => 0)
    [pystr "m1", pystr "m2", pystr "m3", pystr "m4"] [pystr "a", pystr "b", pystr "c"] 4
  constructor
  · rw [h]
    decide
  · intro heq
    rw [heq] at h
    exact absurd h (by decide)
